import Mathlib

/-!
Verification of the `StorageManager` key-value store (src/storage.ts) against
its natural-language specification.

The embedding models the class as pure functions over an explicit store state.

Modelling decisions taken from the source:

* The backing `Map<string, TStorageValue<V>>` is an insertion-ordered
  association list `List (String × Entry V)`; `Map.set` replaces in place
  (keeping the original position) or appends, `Map.delete` removes the single
  matching entry, and iteration visits entries in list order, exactly as
  ECMAScript `Map` iteration does.
* JavaScript `Date` values are `Option Int`: `some t` is a valid date with
  time value `t` (milliseconds since the epoch) and `none` is an Invalid Date
  (time value NaN).  Relational comparison of `Date`s compares time values and
  is false whenever either side is NaN, per the ECMAScript abstract relational
  comparison.  This matters because `lruKey` initialises its sentinel to
  `new Date('275760-12-31')`: the maximal ECMAScript time value is
  8,640,000,000,000,000 ms (+275760-09-13), so this literal is clipped to an
  Invalid Date by `TimeClip`, and every comparison against it yields false.
* Time is passed explicitly: each public operation receives the `Date.now()`
  instant `now : Int` at which it runs.  The source reads the clock more than
  once inside one call (in `cleanup` and in `buildData`); a single public call
  is treated as atomic and instantaneous, matching the spec's single-threaded
  cooperative model.
* The generic payload `V` is stored in a uniform wrapper
  `{value, expireAt, updateAt}`.  The source's `buildData` flattens the two
  timestamps into object-shaped values and wraps every other value; both
  branches carry exactly the payload plus the two timestamps, and the spec
  (§4.1) itself prescribes the uniform wrapper as the typed rendering.
* `crypto.randomBytes` is modelled by an oracle `gen : Nat → List Nat` giving
  the bytes produced by the i-th call; `randomBytes(n)` guarantees `n` bytes,
  each in 0..255.
* A thrown `TypeError` is an `Except.error`: the exception propagates before
  any write, so no modified store is ever produced on that path.
-/

/-- A JavaScript `Date`: `some t` is a valid date with time value `t`,
`none` is an Invalid Date (time value NaN). -/
abbrev JSDate : Type := Option Int

/-- ECMAScript abstract relational comparison `a < b` on dates: compares time
values, false if either is NaN. -/
def dateLt : JSDate → JSDate → Bool
  | some a, some b => a < b
  | _, _ => false

/-- ECMAScript abstract relational comparison `a > b` on dates: compares time
values, false if either is NaN. -/
def dateGt : JSDate → JSDate → Bool
  | some a, some b => b < a
  | _, _ => false

/-- `new Date('275760-12-31')`, the sentinel used by `lruKey`.  The maximal
ECMAScript time value is +275760-09-13, so `TimeClip` turns this literal into
an Invalid Date (time value NaN). -/
def lruSentinel : JSDate := none

/-- A stored entry: the caller's value plus the two timestamps
(`TStorageValue<V>` in the source, rendered as the uniform wrapper). -/
structure Entry (V : Type) where
  value : V
  expireAt : JSDate
  updateAt : JSDate
deriving DecidableEq

/-- The backing `Map<string, TStorageValue<V>>`, as an insertion-ordered
association list. -/
abbrev Store (V : Type) : Type := List (String × Entry V)

/-- `Map.prototype.has`. -/
def mapHas {V : Type} (k : String) : Store V → Bool
  | [] => false
  | (k', _) :: rest => k' == k || mapHas k rest

/-- `Map.prototype.get`. -/
def mapGet {V : Type} (k : String) : Store V → Option (Entry V)
  | [] => none
  | (k', e) :: rest => if k' == k then some e else mapGet k rest

/-- `Map.prototype.set`: replaces in place (keeping the entry's original
position) when the key exists, appends otherwise. -/
def mapSet {V : Type} (k : String) (d : Entry V) : Store V → Store V
  | [] => [(k, d)]
  | (k', e) :: rest => if k' == k then (k, d) :: rest else (k', e) :: mapSet k d rest

/-- `Map.prototype.delete`: removes the single matching entry and reports
whether one was removed. -/
def mapDelete {V : Type} (k : String) : Store V → Bool × Store V
  | [] => (false, [])
  | (k', e) :: rest =>
    if k' == k then (true, rest)
    else ((mapDelete k rest).1, (k', e) :: (mapDelete k rest).2)

/-- The construction-time configuration, after defaults are applied:
`maxItems` is `none` for the `Infinity` default, `expireMs` defaults to
86400000, `keyLength` defaults to 8. -/
structure Config where
  maxItems : Option Nat
  expireMs : Int
  keyLength : Nat
deriving DecidableEq

/-- `this._storage.size >= this._maxItems`; with the `Infinity` default the
comparison is always false. -/
def atCapacity {V : Type} (cfg : Config) (s : Store V) : Bool :=
  match cfg.maxItems with
  | none => false
  | some m => m ≤ s.length

/-- `cleanup()`: iterates the map and deletes every entry whose
`data.expireAt > currentTime` (the literal predicate of the source; deleting
the entry just visited during ECMAScript `Map` iteration is a plain filter). -/
def cleanup {V : Type} (now : Int) : Store V → Store V
  | [] => []
  | (k, e) :: rest =>
    if dateGt e.expireAt (some now) then cleanup now rest
    else (k, e) :: cleanup now rest

/-- `lruKey()`: scans the map keeping the entry whose `expireAt` is strictly
below the running minimum, which starts at the `new Date('275760-12-31')`
sentinel. -/
def lruKey {V : Type} (s : Store V) : Option String :=
  (s.foldl
    (fun acc p => if dateLt p.2.expireAt acc.2 then (some p.1, p.2.expireAt) else acc)
    ((none : Option String), lruSentinel)).1

/-- `buildData(value)`: stamps `expireAt = now + expireMs` and
`updateAt = now`. -/
def buildData {V : Type} (cfg : Config) (now : Int) (v : V) : Entry V :=
  { value := v, expireAt := some (now + cfg.expireMs), updateAt := some now }

/-- `handleMaxCapacity()`: when at capacity, run the sweep synchronously; when
still at capacity, delete `lruKey()`.  When `lruKey()` is `undefined`, the
source does `storage.delete(undefined as string)`, a no-op on a map whose
keys are all strings. -/
def handleMaxCapacity {V : Type} (cfg : Config) (now : Int) (s : Store V) : Store V :=
  let s1 := if atCapacity cfg s then cleanup now s else s
  if atCapacity cfg s1 then
    match lruKey s1 with
    | some k => (mapDelete k s1).2
    | none => s1
  else s1

/-- The discriminated result of `add`/`update`/`upsert`
(`TStorageResult<V>`). -/
inductive StorageResult (V : Type) where
  | ok (key : String) (e : Entry V)
  | fail
deriving DecidableEq

/-- `add({key, value})`, after key validation. -/
def add {V : Type} (cfg : Config) (now : Int) (k : String) (v : V) (s : Store V) :
    StorageResult V × Store V :=
  if mapHas k s then (.fail, s)
  else
    let s1 := handleMaxCapacity cfg now s
    let d := buildData cfg now v
    (.ok k d, mapSet k d s1)

/-- `update({key, value})`, after key validation. -/
def update {V : Type} (cfg : Config) (now : Int) (k : String) (v : V) (s : Store V) :
    StorageResult V × Store V :=
  if !mapHas k s then (.fail, s)
  else
    let s1 := handleMaxCapacity cfg now s
    let d := buildData cfg now v
    (.ok k d, mapSet k d s1)

/-- `upsert({key, value})`, after key validation: consults the capacity policy
only when the key is new, then always overwrites/creates. -/
def upsert {V : Type} (cfg : Config) (now : Int) (k : String) (v : V) (s : Store V) :
    StorageResult V × Store V :=
  let s1 := if !mapHas k s then handleMaxCapacity cfg now s else s
  let d := buildData cfg now v
  (.ok k d, mapSet k d s1)

/-- `get(key)`, after key validation. -/
def getOp {V : Type} (k : String) (s : Store V) : Option (Entry V) :=
  mapGet k s

/-- `delete(key)`, after key validation. -/
def deleteOp {V : Type} (k : String) (s : Store V) : Bool × Store V :=
  mapDelete k s

/-- Keys of a store are pairwise distinct — the `Map` representation
invariant; it holds of every reachable store. -/
def keysUnique {V : Type} (s : Store V) : Prop :=
  (s.map Prod.fst).Nodup

/-- A JavaScript value passed in key position; `typeof key === 'string'` holds
only for the `str` constructor. -/
inductive JSKey where
  | str (s : String)
  | num (n : Int)
  | boolean (b : Bool)
  | nullKey
  | undefinedKey
deriving DecidableEq

/-- `typeof key === 'string'`. -/
def JSKey.isString : JSKey → Bool
  | .str _ => true
  | _ => false

/-- The `TypeError` thrown by `validateKey`. -/
inductive JSError where
  | keyTypeError
deriving DecidableEq

/-- `validateKey(key)`: throws a `TypeError` unless the key is a string. -/
def validateKey (k : JSKey) : Except JSError String :=
  match k with
  | .str s => .ok s
  | _ => .error .keyTypeError

/-- `add` as called from outside: key validation happens first; a thrown
`TypeError` propagates before any mutation, so no store is produced on the
error path. -/
def addJS {V : Type} (cfg : Config) (now : Int) (k : JSKey) (v : V) (s : Store V) :
    Except JSError (StorageResult V × Store V) :=
  match validateKey k with
  | .error e => .error e
  | .ok key => .ok (add cfg now key v s)

/-- `update` as called from outside, with key validation first. -/
def updateJS {V : Type} (cfg : Config) (now : Int) (k : JSKey) (v : V) (s : Store V) :
    Except JSError (StorageResult V × Store V) :=
  match validateKey k with
  | .error e => .error e
  | .ok key => .ok (update cfg now key v s)

/-- `upsert` as called from outside, with key validation first. -/
def upsertJS {V : Type} (cfg : Config) (now : Int) (k : JSKey) (v : V) (s : Store V) :
    Except JSError (StorageResult V × Store V) :=
  match validateKey k with
  | .error e => .error e
  | .ok key => .ok (upsert cfg now key v s)

/-- `get` as called from outside, with key validation first. -/
def getJS {V : Type} (k : JSKey) (s : Store V) : Except JSError (Option (Entry V)) :=
  match validateKey k with
  | .error e => .error e
  | .ok key => .ok (getOp key s)

/-- `delete` as called from outside, with key validation first. -/
def deleteJS {V : Type} (k : JSKey) (s : Store V) : Except JSError (Bool × Store V) :=
  match validateKey k with
  | .error e => .error e
  | .ok key => .ok (deleteOp key s)

/-- The sixteen hexadecimal digit characters in value order — the alphabet of
`Buffer.prototype.toString('hex')` (digits then lowercase letters, which is
what `Nat.digitChar` yields below 16). -/
def hexDigitChars : List Char :=
  (List.range 16).map Nat.digitChar

/-- The hex digit for a nibble. -/
def hexDigit (n : Nat) : Char :=
  hexDigitChars.getD (n % 16) '0'

/-- The two lowercase hex characters `Buffer.toString('hex')` emits for one
byte: high nibble then low nibble (for a byte `b < 256`, `b / 16` is the high
nibble; the extra `% 16` in `hexDigit` is the identity there). -/
def byteToHexChars (b : Nat) : List Char :=
  [hexDigit (b / 16), hexDigit (b % 16)]

/-- `generateKey()`: hex-encodes the `keyLength / 2` random bytes returned by
`crypto.randomBytes`. -/
def generateKey (bytes : List Nat) : String :=
  String.mk (bytes.flatMap byteToHexChars)

/-- The `do`/`while` of `getUniqueKey()`: generate candidate `i`; return it if
it is not in the store, or unconditionally when the retry budget is spent
(`++retryCount <= maxRetries` fails; the final candidate is returned whether
or not it collides). -/
def tryKeys {V : Type} (s : Store V) (cand : Nat → String) : Nat → Nat → String
  | 0, i => cand i
  | b + 1, i => if mapHas (cand i) s then tryKeys s cand b (i + 1) else cand i

/-- `getUniqueKey()`: up to 1 + 15 generation attempts, drawing the i-th
call's random bytes from the oracle `gen`; reads the store, never writes it.
The configuration enters only through the `randomBytes(keyLength / 2)`
contract, stated as the hypothesis that each `gen i` has `keyLength / 2`
bytes. -/
def getUniqueKey {V : Type} (_cfg : Config) (gen : Nat → List Nat) (s : Store V) : String :=
  tryKeys s (fun i => generateKey (gen i)) 15 0

/-- A character is a hexadecimal digit. -/
def isHexChar (c : Char) : Bool :=
  decide (c ∈ hexDigitChars)

/-! ## Helper lemmas about the map operations and the sweep -/

theorem dateLt_sentinel (d : JSDate) : dateLt d lruSentinel = false := by
  cases d <;> rfl

theorem lruKey_foldl_const {V : Type} (s : Store V) (x : Option String) :
    (s.foldl
      (fun acc p => if dateLt p.2.expireAt acc.2 then (some p.1, p.2.expireAt) else acc)
      (x, lruSentinel)) = (x, lruSentinel) := by
  induction s generalizing x with
  | nil => rfl
  | cons p rest ih =>
    simp only [List.foldl_cons, dateLt_sentinel p.2.expireAt, if_neg Bool.false_ne_true]
    exact ih x

/-- The eviction selector can never select anything: its running minimum
starts at an Invalid Date, and every `<` comparison against an Invalid Date
is false, so the accumulator is never updated. -/
theorem lruKey_eq_none {V : Type} (s : Store V) : lruKey s = none := by
  unfold lruKey
  rw [lruKey_foldl_const]

theorem handleMaxCapacity_of_not_atCapacity {V : Type} (cfg : Config) (now : Int)
    (s : Store V) (h : atCapacity cfg s = false) :
    handleMaxCapacity cfg now s = s := by
  unfold handleMaxCapacity
  simp [h]

theorem mapSet_of_not_has {V : Type} (k : String) (d : Entry V) (s : Store V)
    (h : mapHas k s = false) : mapSet k d s = s ++ [(k, d)] := by
  induction s with
  | nil => rfl
  | cons p rest ih =>
    rw [mapHas] at h
    rcases Bool.or_eq_false_iff.mp h with ⟨h1, h2⟩
    cases p with
    | mk k' e =>
      simp only at h1
      rw [mapSet, if_neg (by simp [h1]), ih h2]
      rfl

theorem mapGet_mapSet_self {V : Type} (k : String) (d : Entry V) (s : Store V) :
    mapGet k (mapSet k d s) = some d := by
  induction s with
  | nil => simp [mapSet, mapGet]
  | cons p rest ih =>
    cases p with
    | mk k' e =>
      by_cases h : k' = k
      · simp [mapSet, mapGet, h]
      · rw [mapSet, if_neg (by simp [h]), mapGet, if_neg (by simp [h])]
        exact ih

theorem mapGet_mapSet_ne {V : Type} (k k' : String) (d : Entry V) (s : Store V)
    (h : k' ≠ k) : mapGet k' (mapSet k d s) = mapGet k' s := by
  induction s with
  | nil => simp [mapSet, mapGet, Ne.symm h]
  | cons p rest ih =>
    cases p with
    | mk k0 e =>
      by_cases h0 : k0 = k
      · subst h0
        rw [mapSet, if_pos (by simp), mapGet, if_neg (by simp [Ne.symm h]),
          mapGet, if_neg (by simp [Ne.symm h])]
      · rw [mapSet, if_neg (by simp [h0]), mapGet, mapGet]
        by_cases h1 : k0 = k'
        · simp [h1]
        · rw [if_neg (by simp [h1]), if_neg (by simp [h1])]
          exact ih

theorem mapHas_iff_mem {V : Type} (k : String) (s : Store V) :
    mapHas k s = true ↔ k ∈ s.map Prod.fst := by
  induction s with
  | nil => simp [mapHas]
  | cons p rest ih =>
    rw [mapHas]
    simp only [Bool.or_eq_true, beq_iff_eq, ih, List.map_cons, List.mem_cons]
    exact or_congr_left eq_comm

theorem mapHas_eq_false_of_not_mem {V : Type} (k : String) (s : Store V)
    (h : k ∉ s.map Prod.fst) : mapHas k s = false := by
  rw [← Bool.not_eq_true, mapHas_iff_mem]
  exact h

/-! ## The `Map` key-uniqueness invariant is maintained by every operation -/

theorem cleanup_sublist {V : Type} (now : Int) (s : Store V) : List.Sublist (cleanup now s) s := by
  induction s with
  | nil => exact List.Sublist.refl _
  | cons p rest ih =>
    obtain ⟨k, e⟩ := p
    rw [cleanup]
    by_cases h : dateGt e.expireAt (some now) = true
    · rw [if_pos h]
      exact ih.cons _
    · rw [if_neg h]
      exact ih.cons₂ _

theorem mapDelete_sublist {V : Type} (k : String) (s : Store V) :
    List.Sublist (mapDelete k s).2 s := by
  induction s with
  | nil => exact List.Sublist.refl _
  | cons p rest ih =>
    obtain ⟨k0, e⟩ := p
    rw [mapDelete]
    by_cases h : (k0 == k) = true
    · rw [if_pos h]
      exact (List.Sublist.refl rest).cons _
    · rw [if_neg h]
      exact ih.cons₂ _

theorem handleMaxCapacity_sublist {V : Type} (cfg : Config) (now : Int) (s : Store V) :
    List.Sublist (handleMaxCapacity cfg now s) s := by
  unfold handleMaxCapacity
  have h1 : List.Sublist (if atCapacity cfg s then cleanup now s else s) s := by
    by_cases h : atCapacity cfg s = true
    · rw [if_pos h]
      exact cleanup_sublist now s
    · rw [if_neg h]
  set s1 := if atCapacity cfg s then cleanup now s else s with hs1
  by_cases h2 : atCapacity cfg s1 = true
  · rw [if_pos h2]
    cases hk : lruKey s1 with
    | none => exact h1
    | some k => exact (mapDelete_sublist k s1).trans h1
  · rw [if_neg h2]
    exact h1

theorem keysUnique_of_sublist {V : Type} (s' s : Store V) (h : List.Sublist s' s)
    (hu : keysUnique s) : keysUnique s' :=
  List.Nodup.sublist (h.map Prod.fst) hu

theorem mapSet_map_fst_of_has {V : Type} (k : String) (d : Entry V) (s : Store V)
    (h : mapHas k s = true) : (mapSet k d s).map Prod.fst = s.map Prod.fst := by
  induction s with
  | nil => exact Bool.noConfusion h
  | cons p rest ih =>
    obtain ⟨k0, e⟩ := p
    rw [mapSet]
    by_cases h0 : (k0 == k) = true
    · rw [if_pos h0]
      simp only [List.map_cons]
      rw [beq_iff_eq] at h0
      rw [h0]
    · rw [if_neg h0]
      simp only [List.map_cons]
      rw [mapHas] at h
      rw [Bool.eq_false_iff.mpr h0, Bool.false_or] at h
      rw [ih h]

theorem keysUnique_mapSet {V : Type} (k : String) (d : Entry V) (s : Store V)
    (hu : keysUnique s) : keysUnique (mapSet k d s) := by
  by_cases h : mapHas k s = true
  · unfold keysUnique
    rw [mapSet_map_fst_of_has k d s h]
    exact hu
  · have h' : mapHas k s = false := Bool.eq_false_iff.mpr h
    rw [mapSet_of_not_has k d s h']
    unfold keysUnique at hu ⊢
    rw [List.map_append, List.nodup_append]
    refine ⟨hu, by simp, ?_⟩
    intro a ha hb
    simp only [List.map_cons, List.map_nil, List.mem_singleton] at hb
    subst hb
    rw [mapHas_iff_mem] at h
    exact h ha

/-- Every reachable store satisfies `keysUnique`: the empty store does, and
each mutating operation preserves it. -/
theorem add_preserves_keysUnique {V : Type} (cfg : Config) (now : Int) (k : String)
    (v : V) (s : Store V) (hu : keysUnique s) : keysUnique (add cfg now k v s).2 := by
  unfold add
  by_cases h : mapHas k s = true
  · rw [if_pos h]
    exact hu
  · rw [if_neg h]
    exact keysUnique_mapSet k _ _
      (keysUnique_of_sublist _ s (handleMaxCapacity_sublist cfg now s) hu)

theorem update_preserves_keysUnique {V : Type} (cfg : Config) (now : Int) (k : String)
    (v : V) (s : Store V) (hu : keysUnique s) : keysUnique (update cfg now k v s).2 := by
  unfold update
  by_cases h : mapHas k s = true
  · rw [if_neg (by simp [h])]
    exact keysUnique_mapSet k _ _
      (keysUnique_of_sublist _ s (handleMaxCapacity_sublist cfg now s) hu)
  · rw [if_pos (by simp [Bool.eq_false_iff.mpr h])]
    exact hu

theorem upsert_preserves_keysUnique {V : Type} (cfg : Config) (now : Int) (k : String)
    (v : V) (s : Store V) (hu : keysUnique s) : keysUnique (upsert cfg now k v s).2 := by
  unfold upsert
  by_cases h : mapHas k s = true
  · rw [if_neg (by simp [h])]
    exact keysUnique_mapSet k _ _ hu
  · rw [if_pos (by simp [Bool.eq_false_iff.mpr h])]
    exact keysUnique_mapSet k _ _
      (keysUnique_of_sublist _ s (handleMaxCapacity_sublist cfg now s) hu)

theorem deleteOp_preserves_keysUnique {V : Type} (k : String) (s : Store V)
    (hu : keysUnique s) : keysUnique (deleteOp k s).2 :=
  keysUnique_of_sublist _ s (mapDelete_sublist k s) hu

/-! ## The claims -/

/-- C1: the claim says one run of the expiration sweep removes exactly the
entries with `expireAt ≤ now` and keeps those with `expireAt > now`.  The
sweep as written (`if (data.expireAt > currentTime) delete`) does the exact
opposite.  At `now = 3`, with entry `a` not yet expired (`expireAt = 5`) and
entry `b` already expired (`expireAt = 3`), the sweep deletes `a` and keeps
`b` — the claim requires it to keep `a` and delete `b`. -/
theorem cleanup_inverted_at_input :
    cleanup 3 ([("a", ⟨1, some 5, some 0⟩), ("b", ⟨2, some 3, some 0⟩)] : Store Nat) =
      [("b", ⟨2, some 3, some 0⟩)] := by
  decide

/-- C2: the claim's scenario (`maxItems = 2`, equal `expireMs`, insertions
`a`, `b`, `c`) must end with keys `{b, c}` and size 2 after one eviction of
the earliest-`expireAt` entry.  On the code, `add('c')` triggers the
synchronous sweep, whose inverted predicate deletes the two fresh entries `a`
and `b` outright; the eviction branch is then not reached, and the final
state is `{c}` with size 1.  (Had the eviction branch been reached, it could
not have removed anything either: `lruKey` always returns `undefined`, see
`lruKey_eq_none`.) -/
theorem capacity_scenario_actual :
    (add ⟨some 2, 1000, 8⟩ 0 "c" 3
        (add ⟨some 2, 1000, 8⟩ 0 "b" 2
          (add ⟨some 2, 1000, 8⟩ 0 "a" (1 : Nat) []).2).2).2 =
      [("c", ⟨3, some 1000, some 0⟩)] := by
  decide

/-- C3 (as stated) is false: with `maxItems = 1`, after `add("a")` at time 0,
the key `"b"` is absent and size is 1, yet `add("b")` at time 500 leaves size
at 1 instead of increasing it to 2 — the capacity policy's synchronous sweep
removed `a` first (entries removed under capacity pressure break the
unconditional `+1`). -/
theorem add_size_increment_cex :
    mapHas "b" (add ⟨some 1, 1000, 8⟩ 0 "a" (1 : Nat) []).2 = false ∧
    (add ⟨some 1, 1000, 8⟩ 0 "a" (1 : Nat) []).2.length = 1 ∧
    (add ⟨some 1, 1000, 8⟩ 500 "b" 2 (add ⟨some 1, 1000, 8⟩ 0 "a" (1 : Nat) []).2).1 =
      .ok "b" ⟨2, some 1500, some 500⟩ ∧
    (add ⟨some 1, 1000, 8⟩ 500 "b" 2 (add ⟨some 1, 1000, 8⟩ 0 "a" (1 : Nat) []).2).2.length
      = 1 := by
  decide

/-- C3 (amended): for every key `k` not present and every value `v`,
`add(k, v)` returns success carrying the freshly built entry, whose
`expireAt` is the insertion time plus `expireMs` — unconditionally, whether
or not the store is at capacity.  When the store is below capacity (always
the case for the unbounded default), the new entry is appended and size
increases by exactly 1; under capacity pressure the policy may first remove
entries, so size need not grow. -/
theorem add_new_key_succeeds {V : Type} (cfg : Config) (now : Int) (k : String)
    (v : V) (s : Store V) (hnew : mapHas k s = false) :
    (add cfg now k v s).1 = .ok k (buildData cfg now v) ∧
    (buildData cfg now v).expireAt = some (now + cfg.expireMs) ∧
    (atCapacity cfg s = false →
      add cfg now k v s = (.ok k (buildData cfg now v), s ++ [(k, buildData cfg now v)]) ∧
      (add cfg now k v s).2.length = s.length + 1) := by
  refine ⟨?_, rfl, ?_⟩
  · unfold add
    rw [if_neg (by simp [hnew])]
  · intro hcap
    have hmain : add cfg now k v s =
        (.ok k (buildData cfg now v), s ++ [(k, buildData cfg now v)]) := by
      unfold add
      rw [if_neg (by simp [hnew]), handleMaxCapacity_of_not_atCapacity cfg now s hcap]
      show (StorageResult.ok k (buildData cfg now v), mapSet k (buildData cfg now v) s) = _
      rw [mapSet_of_not_has k _ s hnew]
    refine ⟨hmain, ?_⟩
    rw [hmain]
    simp

/-- Witness for C3 (amended) at a concrete input below capacity, discharging
both the absence hypothesis and the capacity premise. -/
theorem add_new_key_succeeds_witness :
    add ⟨some 2, 1000, 8⟩ 500 "b" (2 : Nat) [("a", ⟨1, some 1000, some 0⟩)] =
      (.ok "b" ⟨2, some 1500, some 500⟩,
        [("a", ⟨1, some 1000, some 0⟩), ("b", ⟨2, some 1500, some 500⟩)]) :=
  ((add_new_key_succeeds ⟨some 2, 1000, 8⟩ 500 "b" 2 [("a", ⟨1, some 1000, some 0⟩)]
    (by decide)).2.2 (by decide)).1

/-- C4: `add` on an already-present key returns the soft failure and leaves
the store completely unchanged — the presence test runs before the capacity
policy and before any write. -/
theorem add_existing_fails {V : Type} (cfg : Config) (now : Int) (k : String)
    (v : V) (s : Store V) (h : mapHas k s = true) :
    add cfg now k v s = (.fail, s) := by
  unfold add
  rw [if_pos h]

/-- Witness for C4 at a concrete input with the key present. -/
theorem add_existing_fails_witness :
    add ⟨none, 86400000, 8⟩ 5 "a" (2 : Nat) [("a", ⟨1, some 10, some 0⟩)] =
      (.fail, [("a", ⟨1, some 10, some 0⟩)]) :=
  add_existing_fails ⟨none, 86400000, 8⟩ 5 "a" 2 [("a", ⟨1, some 10, some 0⟩)] (by decide)

/-- C5: `update` on an absent key returns the soft failure and leaves the
store unchanged — no entry is created. -/
theorem update_missing_fails {V : Type} (cfg : Config) (now : Int) (k : String)
    (v : V) (s : Store V) (h : mapHas k s = false) :
    update cfg now k v s = (.fail, s) := by
  unfold update
  rw [if_pos (by simp [h])]

/-- Witness for C5 at a concrete input with the key absent. -/
theorem update_missing_fails_witness :
    update ⟨none, 86400000, 8⟩ 5 "b" (2 : Nat) [("a", ⟨1, some 10, some 0⟩)] =
      (.fail, [("a", ⟨1, some 10, some 0⟩)]) :=
  update_missing_fails ⟨none, 86400000, 8⟩ 5 "b" 2 [("a", ⟨1, some 10, some 0⟩)] (by decide)

/-- C6: `upsert` always returns success carrying the freshly stamped entry
(`expireAt = now + expireMs`, `updateAt = now`); the key maps to that entry
afterwards; when the key already exists the capacity policy is skipped — the
store is just `mapSet` of the old store, so every other key's entry is
untouched; when the key is new the capacity policy runs first and the entry
is inserted into its result. -/
theorem upsert_contract {V : Type} (cfg : Config) (now : Int) (k : String) (v : V)
    (s : Store V) :
    (upsert cfg now k v s).1 =
      .ok k { value := v, expireAt := some (now + cfg.expireMs), updateAt := some now } ∧
    mapGet k (upsert cfg now k v s).2 = some (buildData cfg now v) ∧
    (mapHas k s = true →
      (upsert cfg now k v s).2 = mapSet k (buildData cfg now v) s ∧
      ∀ k' : String, k' ≠ k → mapGet k' (upsert cfg now k v s).2 = mapGet k' s) ∧
    (mapHas k s = false →
      (upsert cfg now k v s).2 = mapSet k (buildData cfg now v) (handleMaxCapacity cfg now s)) := by
  refine ⟨rfl, ?_, ?_, ?_⟩
  · unfold upsert
    cases h : mapHas k s <;> simp only [h, Bool.not_true, Bool.not_false, if_pos, if_neg] <;>
      exact mapGet_mapSet_self k _ _
  · intro h
    unfold upsert
    simp only [h, Bool.not_true, Bool.false_eq_true, if_neg]
    exact ⟨rfl, fun k' hk => mapGet_mapSet_ne k k' _ s hk⟩
  · intro h
    unfold upsert
    simp only [h, Bool.not_false, if_pos]

/-- Witness for C6, instantiating the contract at a present key. -/
theorem upsert_contract_witness :
    (upsert ⟨some 1, 1000, 8⟩ 500 "a" (2 : Nat) [("a", ⟨1, some 1000, some 0⟩)]).1 =
      .ok "a" ⟨2, some 1500, some 500⟩ :=
  (upsert_contract ⟨some 1, 1000, 8⟩ 500 "a" 2 [("a", ⟨1, some 1000, some 0⟩)]).1

/-- C7: `delete(k)` returns true exactly when `k` was present; on true, size
drops by exactly 1 and `k` is absent afterwards; on false, the store is
unchanged.  The `keysUnique` hypothesis is the `Map` representation
invariant, which holds of every reachable store. -/
theorem delete_contract {V : Type} (k : String) (s : Store V) (hu : keysUnique s) :
    (deleteOp k s).1 = mapHas k s ∧
    ((deleteOp k s).1 = true →
      (deleteOp k s).2.length + 1 = s.length ∧ mapHas k (deleteOp k s).2 = false) ∧
    ((deleteOp k s).1 = false → (deleteOp k s).2 = s) := by
  unfold deleteOp
  induction s with
  | nil => exact ⟨rfl, fun h => Bool.noConfusion h, fun _ => rfl⟩
  | cons p rest ih =>
    obtain ⟨k0, e⟩ := p
    have hu0 : k0 ∉ rest.map Prod.fst ∧ keysUnique rest := by
      unfold keysUnique at hu ⊢
      rw [List.map_cons, List.nodup_cons] at hu
      exact hu
    have ih' := ih hu0.2
    by_cases h0 : k0 = k
    · subst h0
      have habs : mapHas k0 rest = false := mapHas_eq_false_of_not_mem k0 rest hu0.1
      rw [mapDelete, if_pos (by simp)]
      refine ⟨?_, fun _ => ⟨rfl, habs⟩, fun h => Bool.noConfusion h⟩
      rw [mapHas]
      simp
    · have hbeq : (k0 == k) = false := by simp [h0]
      rw [mapDelete, if_neg (by simp [h0])]
      refine ⟨?_, ?_, ?_⟩
      · rw [mapHas, hbeq, Bool.false_or]
        exact ih'.1
      · intro h
        obtain ⟨hlen, hab⟩ := ih'.2.1 h
        refine ⟨?_, ?_⟩
        · show (mapDelete k rest).2.length + 1 + 1 = rest.length + 1
          omega
        · show mapHas k ((k0, e) :: (mapDelete k rest).2) = false
          rw [mapHas, hbeq, Bool.false_or]
          exact hab
      · intro h
        show (k0, e) :: (mapDelete k rest).2 = (k0, e) :: rest
        rw [ih'.2.2 h]

/-- Witness for C7 at a concrete two-entry store with distinct keys. -/
theorem delete_contract_witness :
    (deleteOp "a" ([("a", ⟨1, some 10, some 0⟩), ("b", ⟨2, some 20, some 0⟩)] : Store Nat)).1
      = mapHas "a" ([("a", ⟨1, some 10, some 0⟩), ("b", ⟨2, some 20, some 0⟩)] : Store Nat) :=
  (delete_contract "a" [("a", ⟨1, some 10, some 0⟩), ("b", ⟨2, some 20, some 0⟩)]
    (by unfold keysUnique; decide)).1

/-- C10: the claim says `size ≤ maxItems` is preserved from every reachable
state; the code violates it.  With `maxItems = 1` and `expireMs = 1000`,
`add("a")` at time 0 reaches a one-entry store; `add("b")` at time 1000 then
finds the store at capacity, but the synchronous sweep keeps the expired
entry `a` (inverted predicate: `expireAt = 1000` is not `> 1000`), and the
eviction branch deletes nothing because `lruKey` returns `undefined` (its
Invalid-Date sentinel makes every comparison false, see `lruKey_eq_none`), so
the insertion proceeds and size reaches 2 > 1. -/
theorem maxItems_invariant_violated :
    (add ⟨some 1, 1000, 8⟩ 1000 "b" 2
        (add ⟨some 1, 1000, 8⟩ 0 "a" (1 : Nat) []).2).2.length = 2 := by
  decide

/-! ## Key generation lemmas (for C8) -/

theorem tryKeys_exists_index {V : Type} (s : Store V) (cand : Nat → String) (b i : Nat) :
    ∃ j, i ≤ j ∧ j ≤ i + b ∧ tryKeys s cand b i = cand j := by
  induction b generalizing i with
  | zero => exact ⟨i, le_refl i, by omega, rfl⟩
  | succ b ih =>
    rw [tryKeys]
    by_cases h : mapHas (cand i) s = true
    · rw [if_pos h]
      obtain ⟨j, h1, h2, h3⟩ := ih (i + 1)
      exact ⟨j, by omega, by omega, h3⟩
    · rw [if_neg h]
      exact ⟨i, le_refl i, by omega, rfl⟩

theorem tryKeys_avoids {V : Type} (s : Store V) (cand : Nat → String) (b i : Nat)
    (h : ∃ j, i ≤ j ∧ j ≤ i + b ∧ mapHas (cand j) s = false) :
    mapHas (tryKeys s cand b i) s = false := by
  induction b generalizing i with
  | zero =>
    obtain ⟨j, h1, h2, h3⟩ := h
    have hji : j = i := by omega
    subst hji
    rw [tryKeys]
    exact h3
  | succ b ih =>
    rw [tryKeys]
    by_cases hc : mapHas (cand i) s = true
    · rw [if_pos hc]
      apply ih
      obtain ⟨j, h1, h2, h3⟩ := h
      have hji : j ≠ i := by
        intro hh
        rw [hh, hc] at h3
        exact Bool.noConfusion h3
      exact ⟨j, by omega, by omega, h3⟩
    · rw [if_neg hc]
      exact Bool.eq_false_iff.mpr hc

theorem tryKeys_all_collide {V : Type} (s : Store V) (cand : Nat → String) (b i : Nat)
    (h : ∀ j, i ≤ j → j ≤ i + b → mapHas (cand j) s = true) :
    tryKeys s cand b i = cand (i + b) := by
  induction b generalizing i with
  | zero =>
    rw [tryKeys, Nat.add_zero]
  | succ b ih =>
    rw [tryKeys, if_pos (h i (le_refl i) (by omega)),
      ih (i + 1) (fun j hj1 hj2 => h j (by omega) (by omega))]
    congr 1
    omega

theorem generateKey_length (bytes : List Nat) :
    (generateKey bytes).length = 2 * bytes.length := by
  show (bytes.flatMap byteToHexChars).length = 2 * bytes.length
  induction bytes with
  | nil => rfl
  | cons b rest ih =>
    rw [List.flatMap_cons, List.length_append, ih, List.length_cons]
    have h2 : (byteToHexChars b).length = 2 := rfl
    rw [h2]
    omega

theorem hexDigit_mem (n : Nat) : hexDigit n ∈ hexDigitChars := by
  unfold hexDigit
  have h : n % 16 < hexDigitChars.length := by
    have := Nat.mod_lt n (show 0 < 16 by omega)
    simpa [hexDigitChars] using this
  rw [List.getD_eq_getElem hexDigitChars '0' h]
  exact List.getElem_mem h

theorem generateKey_hex (bytes : List Nat) :
    ((generateKey bytes).data.all isHexChar) = true := by
  show ((bytes.flatMap byteToHexChars).all isHexChar) = true
  rw [List.all_eq_true]
  intro c hc
  rw [List.mem_flatMap] at hc
  obtain ⟨b, _, hcb⟩ := hc
  unfold isHexChar
  rw [decide_eq_true_iff]
  have hcb' : c = hexDigit (b / 16) ∨ c = hexDigit (b % 16) := by
    simpa [byteToHexChars] using hcb
  rcases hcb' with h | h <;> rw [h] <;> exact hexDigit_mem _

/-- C8: for a store with an even `keyLength`, `getUniqueKey` returns a string
of exactly `keyLength` hex characters; if any of the 1 + 15 generated
candidates avoids the stored keys the returned key is absent from the store,
and if every candidate collides the last (16th) candidate is returned as-is,
with no failure signal.  The operation reads the store and returns only a
string, so it cannot mutate it.  The oracle `gen` supplies the bytes of each
`crypto.randomBytes(keyLength / 2)` call, whose contract is the `hLen`
hypothesis. -/
theorem getUniqueKey_spec {V : Type} (cfg : Config) (gen : Nat → List Nat) (s : Store V)
    (hEven : cfg.keyLength % 2 = 0)
    (hLen : ∀ i, (gen i).length = cfg.keyLength / 2) :
    (getUniqueKey cfg gen s).length = cfg.keyLength ∧
    ((getUniqueKey cfg gen s).data.all isHexChar) = true ∧
    ((∃ i, i ≤ 15 ∧ mapHas (generateKey (gen i)) s = false) →
      mapHas (getUniqueKey cfg gen s) s = false) ∧
    ((∀ i, i ≤ 15 → mapHas (generateKey (gen i)) s = true) →
      getUniqueKey cfg gen s = generateKey (gen 15)) := by
  obtain ⟨j, hj1, hj2, hj3⟩ := tryKeys_exists_index s (fun i => generateKey (gen i)) 15 0
  have hkey : getUniqueKey cfg gen s = generateKey (gen j) := hj3
  refine ⟨?_, ?_, ?_, ?_⟩
  · rw [hkey, generateKey_length, hLen j]
    omega
  · rw [hkey]
    exact generateKey_hex (gen j)
  · intro hex
    obtain ⟨i, hi, hcoll⟩ := hex
    exact tryKeys_avoids s (fun i => generateKey (gen i)) 15 0 ⟨i, by omega, by omega, hcoll⟩
  · intro hall
    have h := tryKeys_all_collide s (fun i => generateKey (gen i)) 15 0
      (fun j _ hj2 => hall j (by omega))
    simpa using h

/-- Witness for C8 with 8-character keys, four concrete random bytes and the
empty store. -/
theorem getUniqueKey_spec_witness :
    (getUniqueKey ⟨none, 86400000, 8⟩ (fun _ => [171, 205, 18, 52]) ([] : Store Nat)).length
      = 8 :=
  (getUniqueKey_spec ⟨none, 86400000, 8⟩ (fun _ => [171, 205, 18, 52]) ([] : Store Nat)
    (by decide) (fun _ => rfl)).1

/-- C9: every key-taking public operation — `add`, `update`, `upsert`, `get`,
`delete` — throws the key `TypeError` on every non-string key argument.  The
exception is raised by `validateKey` before the operation touches the map, so
on this path no modified store exists and the caller's store is unchanged. -/
theorem nonstring_key_rejected {V : Type} (cfg : Config) (now : Int) (k : JSKey)
    (v : V) (s : Store V) (h : k.isString = false) :
    addJS cfg now k v s = .error .keyTypeError ∧
    updateJS cfg now k v s = .error .keyTypeError ∧
    upsertJS cfg now k v s = .error .keyTypeError ∧
    getJS k s = (.error .keyTypeError : Except JSError (Option (Entry V))) ∧
    deleteJS k s = (.error .keyTypeError : Except JSError (Bool × Store V)) := by
  cases k with
  | str s0 => exact Bool.noConfusion h
  | num n => exact ⟨rfl, rfl, rfl, rfl, rfl⟩
  | boolean b => exact ⟨rfl, rfl, rfl, rfl, rfl⟩
  | nullKey => exact ⟨rfl, rfl, rfl, rfl, rfl⟩
  | undefinedKey => exact ⟨rfl, rfl, rfl, rfl, rfl⟩

/-- Witness for C9 at the numeric key 7. -/
theorem nonstring_key_rejected_witness :
    addJS ⟨none, 86400000, 8⟩ 0 (.num 7) (1 : Nat) [] = .error .keyTypeError :=
  (nonstring_key_rejected ⟨none, 86400000, 8⟩ 0 (.num 7) (1 : Nat) [] rfl).1
